import Mathlib

/-!
Verification development for a Teensy MIDI-to-HID keyboard translator.

The definitions below are a shallow embedding of the translator's core
(main.cpp): the pressed-key tracker (addPressedKey / removePressedKey),
the report batcher (updateKeyboardState), the key-spec resolver
(parseKeyMapping), the mapping-file line handler, the profile switcher
(switchProfile), the MIDI dispatcher (processMidiMessage) and the
fast-press scheduler (handleFastPress).  Machine bytes are modelled as
Nat with explicit masking where the code relies on byte semantics.
Reports emitted to the HID transport are collected in output lists; one
element of such a list corresponds to one send of the keyboard state.
-/

/-- One entry of the pressed-key list: struct PressedKey of main.cpp. -/
structure PressedKey where
  keyCode : Nat
  modifierMask : Nat
deriving DecidableEq

instance : Inhabited PressedKey := ⟨⟨0, 0⟩⟩

/-- One outgoing HID report: the six key slots that were set (zeros left
out, in slot order) and the modifier byte, as sent by send_now. -/
structure Report where
  keys : List Nat
  modifier : Nat
deriving DecidableEq

/-- The key slots produced by the slot-filling loops of
updateKeyboardState: entries in order, entries with keyCode 0 skipped,
at most six slots filled. -/
def keysOf (l : List PressedKey) : List Nat :=
  ((l.filter (fun k => 0 < k.keyCode)).map (fun k => k.keyCode)).take 6

/-- addPressedKey of main.cpp: skip an exact duplicate pair, append when
fewer than MAX_SIMULTANEOUS_KEYS = 6 entries are held, drop otherwise. -/
def addPressedKey (l : List PressedKey) (kc mm : Nat) : List PressedKey :=
  if l.any (fun k => k.keyCode == kc && k.modifierMask == mm) then l
  else if l.length < 6 then l ++ [⟨kc, mm⟩]
  else l

/-- removePressedKey of main.cpp: remove the first entry whose pair
matches exactly, shifting the remainder down; no match removes nothing. -/
def removePressedKey : List PressedKey → Nat → Nat → List PressedKey
  | [], _, _ => []
  | k :: rest, kc, mm =>
    if k.keyCode == kc && k.modifierMask == mm then rest
    else k :: removePressedKey rest kc mm

/-- The mixed-modifier loop of updateKeyboardState: walk the pressed
list, keep the current run (reversed) in acc together with its modifier
curMod, and emit one report whenever the modifier changes or the list
ends.  Each report combines the run modifier with activeModifierKeys. -/
def mixedBatch (mask : Nat) : Nat → List PressedKey → List PressedKey → List Report
  | curMod, acc, [] => [⟨keysOf acc.reverse, curMod ||| mask⟩]
  | curMod, acc, k :: rest =>
    if k.modifierMask == curMod then mixedBatch mask curMod (k :: acc) rest
    else ⟨keysOf acc.reverse, curMod ||| mask⟩ :: mixedBatch mask k.modifierMask [k] rest

/-- updateKeyboardState of main.cpp, as the list of reports one call
sends: empty state sends one all-clear or modifier-only report; a
uniform-modifier state sends one report; mixed modifiers run the
batching loop. -/
def updateKeyboardState (pressed : List PressedKey) (activeModifierKeys : Nat) : List Report :=
  match pressed with
  | [] =>
    if activeModifierKeys = 0 then [⟨[], 0⟩]
    else [⟨[], activeModifierKeys⟩]
  | k :: rest =>
    if rest.all (fun x => x.modifierMask == k.modifierMask) then
      [⟨keysOf (k :: rest), k.modifierMask ||| activeModifierKeys⟩]
    else
      mixedBatch activeModifierKeys k.modifierMask [k] rest

lemma removePressedKey_absent (l : List PressedKey) (kc mm : Nat)
    (h : ∀ k ∈ l, ¬(k.keyCode = kc ∧ k.modifierMask = mm)) :
    removePressedKey l kc mm = l := by
  induction l with
  | nil => rfl
  | cons a rest ih =>
    have ha := h a (by simp)
    have : (a.keyCode == kc && a.modifierMask == mm) = false := by
      simp only [Bool.and_eq_false_iff, beq_eq_false_iff_ne, ne_eq]
      by_cases h1 : a.keyCode = kc
      · right; intro h2; exact ha ⟨h1, h2⟩
      · left; exact h1
    simp only [removePressedKey, this, if_neg]
    rw [if_neg (by simp [this])]
    rw [ih (fun k hk => h k (by simp [hk]))]

lemma removePressedKey_append (l : List PressedKey) (kc mm : Nat)
    (h : ∀ k ∈ l, ¬(k.keyCode = kc ∧ k.modifierMask = mm)) :
    removePressedKey (l ++ [⟨kc, mm⟩]) kc mm = l := by
  induction l with
  | nil => simp [removePressedKey]
  | cons a rest ih =>
    have ha := h a (by simp)
    have hb : (a.keyCode == kc && a.modifierMask == mm) = false := by
      simp only [Bool.and_eq_false_iff, beq_eq_false_iff_ne, ne_eq]
      by_cases h1 : a.keyCode = kc
      · right; intro h2; exact ha ⟨h1, h2⟩
      · left; exact h1
    simp only [List.cons_append, removePressedKey]
    rw [if_neg (by simp [hb])]
    exact congrArg (a :: ·) (ih (fun k hk => h k (by simp [hk])))

/-- Claim C7 (amended): provided the pair is not already present, add
followed by remove of the same pair restores the prior list exactly,
and remove of an absent pair is a no-op. -/
theorem add_remove_roundtrip_absent (l : List PressedKey) (kc mm : Nat)
    (h : ∀ k ∈ l, ¬(k.keyCode = kc ∧ k.modifierMask = mm)) :
    removePressedKey (addPressedKey l kc mm) kc mm = l ∧
    removePressedKey l kc mm = l := by
  refine ⟨?_, removePressedKey_absent l kc mm h⟩
  have hany : (l.any (fun k => k.keyCode == kc && k.modifierMask == mm)) = false := by
    simp only [List.any_eq_false]
    intro k hk
    simp only [Bool.and_eq_true, beq_iff_eq]
    exact h k hk
  unfold addPressedKey
  rw [hany]
  simp only [Bool.false_eq_true, if_false]
  by_cases hlen : l.length < 6
  · rw [if_pos hlen]
    exact removePressedKey_append l kc mm h
  · rw [if_neg hlen]
    exact removePressedKey_absent l kc mm h

/-- Claim C7, counterexample to the original statement: when the pair is
already present, add is a duplicate-skipping no-op, so the following
remove deletes the pre-existing entry instead of restoring the state. -/
theorem add_remove_present_not_inverse :
    removePressedKey (addPressedKey [⟨4, 0⟩] 4 0) 4 0 ≠ [⟨4, 0⟩] := by decide

/-- Witness for the amended C7 theorem at a concrete absent pair. -/
theorem add_remove_roundtrip_absent_witness :
    removePressedKey (addPressedKey [⟨5, 1⟩] 4 0) 4 0 = [⟨5, 1⟩] ∧
    removePressedKey [⟨5, 1⟩] 4 0 = [⟨5, 1⟩] :=
  add_remove_roundtrip_absent [⟨5, 1⟩] 4 0 (by decide)

/-- Claim C4: a pressed-key list whose entries all share one modifier
value M yields exactly one report, carrying the key codes in insertion
order (entries with keyCode 0 skipped, at most six), with modifier
M OR activeModifierKeys; the empty list yields exactly one report with
no keys and modifier equal to activeModifierKeys.  When no entry has
keyCode 0, the report carries min(N, 6) key codes. -/
theorem updateKeyboardState_uniform (l : List PressedKey) (amk M : Nat)
    (hM : ∀ k ∈ l, k.modifierMask = M) :
    updateKeyboardState l amk =
      [⟨((l.filter (fun k => 0 < k.keyCode)).map (fun k => k.keyCode)).take 6,
        if l = [] then amk else M ||| amk⟩] ∧
    ((∀ k ∈ l, 0 < k.keyCode) →
      (((l.filter (fun k => 0 < k.keyCode)).map (fun k => k.keyCode)).take 6).length =
        min l.length 6) := by
  constructor
  · cases l with
    | nil =>
      by_cases h0 : amk = 0
      · simp [updateKeyboardState, h0]
      · simp [updateKeyboardState, h0]
    | cons k rest =>
      have hall : (rest.all (fun x => x.modifierMask == k.modifierMask)) = true := by
        simp only [List.all_eq_true, beq_iff_eq]
        intro x hx
        rw [hM x (by simp [hx]), hM k (by simp)]
      simp only [updateKeyboardState, hall, if_pos]
      rw [hM k (by simp)]
      simp [keysOf]
  · intro hpos
    have hfilter : l.filter (fun k => 0 < k.keyCode) = l :=
      List.filter_eq_self.mpr (fun a ha => by simpa using hpos a ha)
    rw [hfilter, List.length_take, List.length_map, Nat.min_comm]

/-- Witness for C4 at a concrete two-entry uniform state. -/
theorem updateKeyboardState_uniform_witness :
    updateKeyboardState [⟨4, 0⟩, ⟨5, 0⟩] 0 =
      [⟨((([⟨4, 0⟩, ⟨5, 0⟩] : List PressedKey).filter
          (fun k => 0 < k.keyCode)).map (fun k => k.keyCode)).take 6,
        if ([⟨4, 0⟩, ⟨5, 0⟩] : List PressedKey) = [] then 0 else 0 ||| 0⟩] ∧
    ((∀ k ∈ ([⟨4, 0⟩, ⟨5, 0⟩] : List PressedKey), 0 < k.keyCode) →
      (((([⟨4, 0⟩, ⟨5, 0⟩] : List PressedKey).filter
          (fun k => 0 < k.keyCode)).map (fun k => k.keyCode)).take 6).length =
        min ([⟨4, 0⟩, ⟨5, 0⟩] : List PressedKey).length 6) :=
  updateKeyboardState_uniform [⟨4, 0⟩, ⟨5, 0⟩] 0 0 (by decide)

/-- Spec-side partition of a pressed-key list into maximal runs of
consecutive entries sharing one modifierMask, in insertion order. -/
def runsOf : List PressedKey → List (List PressedKey)
  | [] => []
  | [k] => [[k]]
  | k :: k2 :: rest =>
    match runsOf (k2 :: rest) with
    | [] => [[k]]
    | r :: rs =>
      if k.modifierMask = k2.modifierMask then (k :: r) :: rs else [k] :: r :: rs

/-- The report the spec assigns to one run: the run's key codes in
order (keyCode 0 skipped, at most six) under the run's modifier
combined with the standalone-modifier mask. -/
def reportOfRun (mask : Nat) (r : List PressedKey) : Report :=
  ⟨keysOf r, r.headI.modifierMask ||| mask⟩

lemma runsOf_head_cons (k : PressedKey) (rest : List PressedKey) :
    ∃ t rs, runsOf (k :: rest) = (k :: t) :: rs := by
  cases rest with
  | nil => exact ⟨[], [], rfl⟩
  | cons k2 rest2 =>
    rcases runsOf_head_cons k2 rest2 with ⟨t2, rs2, h2⟩
    by_cases hm : k.modifierMask = k2.modifierMask
    · exact ⟨k2 :: t2, rs2, by simp [runsOf, h2, hm]⟩
    · exact ⟨[], (k2 :: t2) :: rs2, by simp [runsOf, h2, hm]⟩

lemma runsOf_join (l : List PressedKey) : (runsOf l).flatten = l := by
  induction l with
  | nil => rfl
  | cons k rest ih =>
    cases rest with
    | nil => simp [runsOf]
    | cons k2 rest2 =>
      rcases runsOf_head_cons k2 rest2 with ⟨t2, rs2, h2⟩
      rw [h2] at ih
      simp only [List.flatten_cons, List.cons_append] at ih
      by_cases hm : k.modifierMask = k2.modifierMask
      · simp only [runsOf, h2, if_pos hm, List.flatten_cons, List.cons_append]
        rw [ih]
      · simp only [runsOf, h2, if_neg hm, List.flatten_cons, List.cons_append,
          List.singleton_append]
        simp [ih]

lemma runsOf_const (l : List PressedKey) :
    ∀ r ∈ runsOf l, ∃ hd tl, r = hd :: tl ∧ ∀ a ∈ r, a.modifierMask = hd.modifierMask := by
  induction l with
  | nil => intro r hr; simp [runsOf] at hr
  | cons k rest ih =>
    cases rest with
    | nil =>
      intro r hr
      simp only [runsOf, List.mem_singleton] at hr
      exact ⟨k, [], hr, by simp [hr]⟩
    | cons k2 rest2 =>
      rcases runsOf_head_cons k2 rest2 with ⟨t2, rs2, h2⟩
      intro r hr
      by_cases hm : k.modifierMask = k2.modifierMask
      · simp only [runsOf, h2, if_pos hm, List.mem_cons] at hr
        rcases hr with hr | hr
        · subst hr
          rcases ih (k2 :: t2) (by rw [h2]; exact List.mem_cons_self _ _) with
            ⟨hd2, tl2, he2, hc2⟩
          have hk2 : k2.modifierMask = hd2.modifierMask := hc2 k2 (List.mem_cons_self _ _)
          refine ⟨k, k2 :: t2, rfl, ?_⟩
          intro a ha
          rcases List.mem_cons.mp ha with h | h
          · rw [h]
          · have h3 := hc2 a h
            rw [h3, ← hk2, ← hm]
        · exact ih r (by rw [h2]; simp [hr])
      · simp only [runsOf, h2, if_neg hm, List.mem_cons] at hr
        rcases hr with hr | hr
        · exact ⟨k, [], hr, by simp [hr]⟩
        · exact ih r (by rw [h2]; simp [hr])

lemma runsOf_chain (l : List PressedKey) :
    List.Chain' (fun r q => r.headI.modifierMask ≠ q.headI.modifierMask) (runsOf l) := by
  induction l with
  | nil => simp [runsOf]
  | cons k rest ih =>
    cases rest with
    | nil => simp [runsOf]
    | cons k2 rest2 =>
      rcases runsOf_head_cons k2 rest2 with ⟨t2, rs2, h2⟩
      rw [h2] at ih
      by_cases hm : k.modifierMask = k2.modifierMask
      · simp only [runsOf, h2, if_pos hm]
        cases rs2 with
        | nil => simp
        | cons q qs =>
          rw [List.chain'_cons] at ih ⊢
          refine ⟨?_, ih.2⟩
          simpa [List.headI, hm] using ih.1
      · simp only [runsOf, h2, if_neg hm]
        rw [List.chain'_cons]
        exact ⟨by simpa [List.headI] using hm, ih⟩

lemma runsOf_all_same (l : List PressedKey) (m : Nat) (hne : l ≠ [])
    (hm : ∀ a ∈ l, a.modifierMask = m) : runsOf l = [l] := by
  induction l with
  | nil => exact absurd rfl hne
  | cons k rest ih =>
    cases rest with
    | nil => simp [runsOf]
    | cons k2 rest2 =>
      have hrec : runsOf (k2 :: rest2) = [k2 :: rest2] :=
        ih (by simp) (fun a ha => hm a (by simp [List.mem_cons] at ha ⊢; tauto))
      have heq : k.modifierMask = k2.modifierMask := by
        rw [hm k (by simp), hm k2 (by simp)]
      simp [runsOf, hrec, heq]

lemma runsOf_append_break (l1 : List PressedKey) (m : Nat) (k : PressedKey)
    (rest : List PressedKey) (h1 : l1 ≠ []) (hm : ∀ a ∈ l1, a.modifierMask = m)
    (hk : k.modifierMask ≠ m) :
    runsOf (l1 ++ k :: rest) = l1 :: runsOf (k :: rest) := by
  induction l1 with
  | nil => exact absurd rfl h1
  | cons a l1' ih =>
    cases l1' with
    | nil =>
      rcases runsOf_head_cons k rest with ⟨t, rs, h⟩
      have ham : a.modifierMask = m := hm a (by simp)
      simp only [List.singleton_append, runsOf, h]
      rw [if_neg (by rw [ham]; exact fun hh => hk hh.symm)]
    | cons b l1'' =>
      have hrec : runsOf (b :: l1'' ++ k :: rest) = (b :: l1'') :: runsOf (k :: rest) :=
        ih (by simp) (fun x hx => hm x (by simp [List.mem_cons] at hx ⊢; tauto))
      have hab : a.modifierMask = b.modifierMask := by
        rw [hm a (by simp), hm b (by simp)]
      simp only [List.cons_append] at hrec ⊢
      simp [runsOf, hrec, hab]

lemma mixedBatch_eq_runs (mask : Nat) (rest : List PressedKey) :
    ∀ curMod acc, acc ≠ [] → (∀ a ∈ acc, a.modifierMask = curMod) →
      mixedBatch mask curMod acc rest =
        (runsOf (acc.reverse ++ rest)).map (reportOfRun mask) := by
  induction rest with
  | nil =>
    intro curMod acc hne hmod
    have hrev : acc.reverse ≠ [] := by simpa using hne
    rw [mixedBatch, List.append_nil,
      runsOf_all_same acc.reverse curMod hrev (fun a ha => hmod a (by simpa using ha))]
    have hhead : (acc.reverse).headI.modifierMask = curMod := by
      cases hh : acc.reverse with
      | nil => exact absurd hh hrev
      | cons x xs =>
        have : x ∈ acc := by
          have : x ∈ acc.reverse := by rw [hh]; simp
          simpa using this
        simpa [List.headI] using hmod x this
    simp [reportOfRun, hhead]
  | cons k rest' ih =>
    intro curMod acc hne hmod
    by_cases hk : k.modifierMask = curMod
    · rw [mixedBatch, if_pos (by simpa using hk)]
      have hacc : ∀ a ∈ k :: acc, a.modifierMask = curMod := by
        intro a ha
        rcases List.mem_cons.mp ha with h | h
        · rw [h]; exact hk
        · exact hmod a h
      rw [ih curMod (k :: acc) (by simp) hacc]
      simp
    · rw [mixedBatch, if_neg (by simpa using hk)]
      rw [ih k.modifierMask [k] (by simp) (by simp)]
      have hrev : acc.reverse ≠ [] := by simpa using hne
      rw [runsOf_append_break acc.reverse curMod k rest'
        hrev (fun a ha => hmod a (by simpa using ha)) hk]
      have hhead : (acc.reverse).headI.modifierMask = curMod := by
        cases hh : acc.reverse with
        | nil => exact absurd hh hrev
        | cons x xs =>
          have : x ∈ acc := by
            have : x ∈ acc.reverse := by rw [hh]; simp
            simpa using this
          simpa [List.headI] using hmod x this
      simp [reportOfRun, hhead]

/-- Claim C3: with at least two distinct modifier values present, the
batcher emits exactly the reports of the maximal runs of consecutive
equal-modifier entries, in insertion order: one report per run, the
run's key codes in order, modifier equal to the run's modifier OR
activeModifierKeys; the runs partition the list in order, each run is a
nonempty constant-modifier block, and adjacent runs differ. -/
theorem updateKeyboardState_mixed_runs (l : List PressedKey) (mask : Nat)
    (hne : l ≠ []) (hmix : ∃ a ∈ l, ∃ b ∈ l, a.modifierMask ≠ b.modifierMask) :
    updateKeyboardState l mask = (runsOf l).map (reportOfRun mask) ∧
    (runsOf l).flatten = l ∧
    (∀ r ∈ runsOf l, r ≠ [] ∧ ∀ a ∈ r, ∀ b ∈ r, a.modifierMask = b.modifierMask) ∧
    List.Chain' (fun r q => r.headI.modifierMask ≠ q.headI.modifierMask) (runsOf l) := by
  refine ⟨?_, runsOf_join l, ?_, runsOf_chain l⟩
  · cases l with
    | nil => exact absurd rfl hne
    | cons k rest =>
      have hall : (rest.all (fun x => x.modifierMask == k.modifierMask)) = false := by
        rcases hmix with ⟨a, ha, b, hb, hab⟩
        by_contra hcon
        have hcon' : rest.all (fun x => x.modifierMask == k.modifierMask) = true := by
          simpa using hcon
        have hall' : ∀ x ∈ (k :: rest), x.modifierMask = k.modifierMask := by
          intro x hx
          rcases List.mem_cons.mp hx with h | h
          · rw [h]
          · simpa using List.all_eq_true.mp hcon' x h
        exact hab ((hall' a ha).trans (hall' b hb).symm)
      rw [updateKeyboardState]
      simp only [hall, Bool.false_eq_true, if_false]
      have := mixedBatch_eq_runs mask rest k.modifierMask [k] (by simp) (by simp)
      simpa using this
  · intro r hr
    rcases runsOf_const l r hr with ⟨hd, tl, he, hc⟩
    refine ⟨by simp [he], ?_⟩
    intro a ha b hb
    rw [hc a ha, hc b hb]

/-- Witness for C3 at the spec's own example: three keys with modifiers
of the shape M1, M1, M2 produce exactly two reports, the first with the
first two keys under M1, the second with the third key under M2. -/
theorem updateKeyboardState_mixed_runs_witness :
    (updateKeyboardState [⟨4, 2⟩, ⟨5, 2⟩, ⟨6, 1⟩] 0 =
      (runsOf [⟨4, 2⟩, ⟨5, 2⟩, ⟨6, 1⟩]).map (reportOfRun 0) ∧
    (runsOf [⟨4, 2⟩, ⟨5, 2⟩, ⟨6, 1⟩]).flatten = [⟨4, 2⟩, ⟨5, 2⟩, ⟨6, 1⟩] ∧
    (∀ r ∈ runsOf [⟨4, 2⟩, ⟨5, 2⟩, ⟨6, 1⟩],
      r ≠ [] ∧ ∀ a ∈ r, ∀ b ∈ r, a.modifierMask = b.modifierMask) ∧
    List.Chain' (fun r q => r.headI.modifierMask ≠ q.headI.modifierMask)
      (runsOf [⟨4, 2⟩, ⟨5, 2⟩, ⟨6, 1⟩])) ∧
    updateKeyboardState [⟨4, 2⟩, ⟨5, 2⟩, ⟨6, 1⟩] 0 = [⟨[4, 5], 2⟩, ⟨[6], 1⟩] :=
  ⟨updateKeyboardState_mixed_runs [⟨4, 2⟩, ⟨5, 2⟩, ⟨6, 1⟩] 0 (by decide)
    ⟨⟨4, 2⟩, by decide, ⟨6, 1⟩, by decide, by decide⟩, by decide⟩

/-- Shorthand turning a string literal into the character list the
embedded Arduino String operations work on. -/
def cs (s : String) : List Char := s.data

/-- The whitespace test of Arduino String.trim (C isspace). -/
def isSpc (c : Char) : Bool :=
  c == ' ' || c == '\t' || c == '\n' || c == '\r' || c == '\x0b' || c == '\x0c'

/-- Arduino String.trim: strip leading and trailing whitespace. -/
def trimChars (l : List Char) : List Char :=
  ((l.dropWhile isSpc).reverse.dropWhile isSpc).reverse

/-- Arduino String.toUpperCase, ASCII. -/
def upperChars (l : List Char) : List Char := l.map Char.toUpper

/-- Arduino String.lastIndexOf for a single character. -/
def lastIdxOf (l : List Char) (c : Char) : Option Nat :=
  match l.reverse.findIdx? (fun x => x == c) with
  | some j => some (l.length - 1 - j)
  | none => none

/-- Result of the key-spec resolver: HID key code (0 when the spec is a
standalone modifier) and modifier byte.  Mirrors struct KeyMapping. -/
structure KeyMapping where
  keyCode : Nat
  modifierMask : Nat
deriving DecidableEq

/-- The separator-splitting part of parseKeyMapping: the first branch
fires for any '+' at a positive index and reads MODIFIER+KEY; only when
the first '+' sits at index 0 (or there is none) does the code consult
lastIndexOf for the KEY+MODIFIER reading.  Returns (modifier token,
base-key token), both trimmed. -/
def splitSpec (keyName : List Char) : List Char × List Char :=
  match keyName.findIdx? (fun c => c == '+') with
  | some p =>
    if 0 < p then (trimChars (keyName.take p), trimChars (keyName.drop (p + 1)))
    else
      match lastIdxOf keyName '+' with
      | some q =>
        if 0 < q then (trimChars (keyName.drop (q + 1)), trimChars (keyName.take q))
        else ([], keyName)
      | none => ([], keyName)
  | none =>
    match lastIdxOf keyName '+' with
    | some q =>
      if 0 < q then (trimChars (keyName.drop (q + 1)), trimChars (keyName.take q))
      else ([], keyName)
    | none => ([], keyName)

/-- The modifier-token table of parseKeyMapping; an unrecognized token
contributes mask 0 without failing the parse. -/
def modifierMaskOf (m : List Char) : Nat :=
  if m = cs "SHIFT" ∨ m = cs "LEFTSHIFT" then 2
  else if m = cs "RSHIFT" ∨ m = cs "RIGHTSHIFT" then 32
  else if m = cs "CTRL" ∨ m = cs "CONTROL" ∨ m = cs "LEFTCTRL" then 1
  else if m = cs "RCTRL" ∨ m = cs "RIGHTCTRL" then 16
  else if m = cs "ALT" ∨ m = cs "LEFTALT" then 4
  else if m = cs "RALT" ∨ m = cs "RIGHTALT" then 64
  else if m = cs "META" ∨ m = cs "WIN" ∨ m = cs "CMD" ∨ m = cs "LEFTMETA" then 8
  else if m = cs "RMETA" ∨ m = cs "RIGHTMETA" then 128
  else 0

/-- The named-key section of parseKeyMapping, in source order: named
keys, then the eight standalone modifier keys (these overwrite the
modifier mask and carry keyCode 0), then punctuation; anything else is
a resolution failure. -/
def parseNamedKey (b : List Char) (mm : Nat) : Option KeyMapping :=
  if b = cs "SPACE" ∨ b = cs "SPC" then some ⟨44, mm⟩
  else if b = cs "ENTER" ∨ b = cs "RETURN" then some ⟨40, mm⟩
  else if b = cs "TAB" then some ⟨43, mm⟩
  else if b = cs "ESC" ∨ b = cs "ESCAPE" then some ⟨41, mm⟩
  else if b = cs "BACKSPACE" ∨ b = cs "BS" then some ⟨42, mm⟩
  else if b = cs "LSHIFT" ∨ b = cs "LEFTSHIFT" then some ⟨0, 2⟩
  else if b = cs "RSHIFT" ∨ b = cs "RIGHTSHIFT" then some ⟨0, 32⟩
  else if b = cs "LCTRL" ∨ b = cs "LEFTCTRL" then some ⟨0, 1⟩
  else if b = cs "RCTRL" ∨ b = cs "RIGHTCTRL" then some ⟨0, 16⟩
  else if b = cs "LALT" ∨ b = cs "LEFTALT" then some ⟨0, 4⟩
  else if b = cs "RALT" ∨ b = cs "RIGHTALT" then some ⟨0, 64⟩
  else if b = cs "LMETA" ∨ b = cs "LEFTMETA" ∨ b = cs "LWIN" ∨ b = cs "LCMD" then some ⟨0, 8⟩
  else if b = cs "RMETA" ∨ b = cs "RIGHTMETA" ∨ b = cs "RWIN" ∨ b = cs "RCMD" then some ⟨0, 128⟩
  else if b = cs "COMMA" ∨ b = cs "," then some ⟨54, mm⟩
  else if b = cs "DOT" ∨ b = cs "PERIOD" ∨ b = cs "." then some ⟨55, mm⟩
  else if b = cs "SLASH" ∨ b = cs "/" ∨ b = cs "?" then some ⟨56, mm⟩
  else if b = cs "MINUS" ∨ b = cs "-" ∨ b = cs "DASH" then some ⟨45, mm⟩
  else if b = cs "EQUAL" ∨ b = cs "EQUALS" ∨ b = cs "=" then some ⟨46, mm⟩
  else if b = cs "LEFTBRACE" ∨ b = cs "LBRACE" ∨ b = cs "[" then some ⟨47, mm⟩
  else if b = cs "RIGHTBRACE" ∨ b = cs "RBRACE" ∨ b = cs "]" then some ⟨48, mm⟩
  else if b = cs "BACKSLASH" ∨ b = cs "BSLASH" ∨ b = cs "\\" then some ⟨49, mm⟩
  else none

/-- The base-key part of parseKeyMapping: single letters A-Z and digits
0-9 first, then the named-key section. -/
def parseBaseKey (b : List Char) (mm : Nat) : Option KeyMapping :=
  match b with
  | [c] =>
    if 'A' ≤ c ∧ c ≤ 'Z' then some ⟨4 + (c.toNat - 65), mm⟩
    else if '0' ≤ c ∧ c ≤ '9' then
      if c = '0' then some ⟨39, mm⟩ else some ⟨30 + (c.toNat - 49), mm⟩
    else parseNamedKey b mm
  | _ => parseNamedKey b mm

/-- parseKeyMapping of main.cpp: trim and upper-case the key-spec,
split off an optional modifier token, resolve it to a mask, then
resolve the (re-trimmed) base-key token; none is a parse failure. -/
def parseKeyMapping (input : List Char) : Option KeyMapping :=
  let keyName := upperChars (trimChars input)
  let pair := splitSpec keyName
  parseBaseKey (trimChars pair.2) (modifierMaskOf pair.1)

/-- Claim C5 (code bug): the function's own header comment promises that
modifier and base key are accepted in either order ("SHIFT+F" and
"F+SHIFT" alike), but indexOf returns a positive position for any
embedded '+', so the KEY+MODIFIER branch is unreachable for such
inputs: "SHIFT+F" resolves to key F with the left-shift bit while
"F+SHIFT" fails to resolve ("F" is no modifier token and "SHIFT" is no
base key). -/
theorem parseKeyMapping_order_asymmetry :
    parseKeyMapping (cs "SHIFT+F") = some ⟨9, 2⟩ ∧
    parseKeyMapping (cs "F+SHIFT") = none := by decide

/-- The modifier tokens parseKeyMapping recognizes, with the mask bit
each contributes. -/
def modifierTokens : List (List Char × Nat) :=
  [(cs "SHIFT", 2), (cs "LEFTSHIFT", 2), (cs "RSHIFT", 32), (cs "RIGHTSHIFT", 32),
   (cs "CTRL", 1), (cs "CONTROL", 1), (cs "LEFTCTRL", 1), (cs "RCTRL", 16),
   (cs "RIGHTCTRL", 16), (cs "ALT", 4), (cs "LEFTALT", 4), (cs "RALT", 64),
   (cs "RIGHTALT", 64), (cs "META", 8), (cs "WIN", 8), (cs "CMD", 8),
   (cs "LEFTMETA", 8), (cs "RMETA", 128), (cs "RIGHTMETA", 128)]

/-- The standalone modifier-key base tokens parseKeyMapping recognizes,
with the modifier bit each stands for. -/
def standaloneModTokens : List (List Char × Nat) :=
  [(cs "LSHIFT", 2), (cs "LEFTSHIFT", 2), (cs "RSHIFT", 32), (cs "RIGHTSHIFT", 32),
   (cs "LCTRL", 1), (cs "LEFTCTRL", 1), (cs "RCTRL", 16), (cs "RIGHTCTRL", 16),
   (cs "LALT", 4), (cs "LEFTALT", 4), (cs "RALT", 64), (cs "RIGHTALT", 64),
   (cs "LMETA", 8), (cs "LEFTMETA", 8), (cs "LWIN", 8), (cs "LCMD", 8),
   (cs "RMETA", 128), (cs "RIGHTMETA", 128), (cs "RWIN", 128), (cs "RCMD", 128)]

/-- Claim C10: a key-spec combining any recognized modifier token with
any standalone modifier-key base token resolves successfully to keyCode
0 with the base key's modifier bit alone: the standalone branch assigns
the mask, so the bit contributed by the modifier token is overwritten,
not OR-combined. -/
theorem standalone_base_overwrites_modifier :
    ∀ p ∈ modifierTokens, ∀ q ∈ standaloneModTokens,
      parseKeyMapping (p.1 ++ '+' :: q.1) = some ⟨0, q.2⟩ ∧
      modifierMaskOf p.1 = p.2 := by decide

/-- Witness for C10 at the pair SHIFT+LCTRL: the shift bit 2 from the
modifier token is discarded and the result carries only the ctrl bit. -/
theorem standalone_base_overwrites_modifier_witness :
    parseKeyMapping (cs "SHIFT" ++ '+' :: cs "LCTRL") = some ⟨0, 1⟩ ∧
    modifierMaskOf (cs "SHIFT") = 2 :=
  standalone_base_overwrites_modifier (cs "SHIFT", 2) (by decide)
    (cs "LCTRL", 1) (by decide)

/-- Arduino String.toInt, i.e. C atol: skip leading whitespace, read an
optional sign and then leading decimal digits; no digits yield 0. -/
def digitsVal (l : List Char) : Nat :=
  (l.takeWhile (fun c => c.isDigit)).foldl (fun a c => a * 10 + (c.toNat - 48)) 0

/-- Arduino String.toInt over a character list. -/
def toIntChars (l : List Char) : Int :=
  match l.dropWhile isSpc with
  | '-' :: rest => -(digitsVal rest : Int)
  | '+' :: rest => (digitsVal rest : Int)
  | l1 => (digitsVal l1 : Int)

/-- Inline-comment stripping of a mapping value: everything from the
first '#' on is cut (indexOf 0 included, leaving an empty value). -/
def stripComment (l : List Char) : List Char :=
  match l.findIdx? (fun c => c == '#') with
  | some p => l.take p
  | none => l

/-- The per-profile fields the mapping-file loop of loadMappings
mutates: the two settings and the 128-entry note table. -/
structure ProfileCfg where
  fastPressMode : Bool
  pressDurationMs : Nat
  table : Nat → KeyMapping

/-- One iteration of the line loop of loadMappings: trim, skip blank,
section and comment lines, split at the first '=' (which must sit at a
positive index), recognize the two per-profile settings, and otherwise
treat the line as NOTE=KEYSPEC: the left side goes through toInt, the
right side loses any inline comment and is re-trimmed; the table entry
is written only when the note is in [0,127] and the resolver succeeds. -/
def processMappingLine (p : ProfileCfg) (rawLine : List Char) : ProfileCfg :=
  let line := trimChars rawLine
  if line = [] then p
  else if line.head? = some '[' ∧ line.getLast? = some ']' then p
  else if line.head? = some '#' then p
  else
    match line.findIdx? (fun c => c == '=') with
    | none => p
    | some e =>
      if 0 < e then
        let leftSide := trimChars (line.take e)
        let rightSide := trimChars (line.drop (e + 1))
        let leftUpper := upperChars leftSide
        if leftUpper = cs "FAST_PRESS_MODE" ∨ leftUpper = cs "FASTPRESS" then
          let v := upperChars rightSide
          { p with fastPressMode :=
              v = cs "1" ∨ v = cs "TRUE" ∨ v = cs "ON" ∨ v = cs "YES" }
        else if leftUpper = cs "PRESS_DURATION" ∨ leftUpper = cs "DURATION" then
          let d := toIntChars rightSide
          if 0 ≤ d ∧ d ≤ 1000 then { p with pressDurationMs := d.toNat } else p
        else
          let note := toIntChars leftSide
          let keyName := trimChars (stripComment rightSide)
          if 0 ≤ note ∧ note < 128 then
            match parseKeyMapping keyName with
            | some km => { p with table := fun n => if n = note.toNat then km else p.table n }
            | none => p
          else p
      else p

/-- Claim C6 (amended): a mapping-file line changes the note table only
when the line splits at a positive '=' position, the left side run
through toInt (atol semantics, so a non-numeric left side counts as 0)
lands in [0,127], and the resolver succeeds on the comment-stripped,
trimmed right side; in that case exactly the entry of that note is
set to the resolved mapping and every other entry keeps its prior
value; in every other case every table entry keeps its prior value,
and no error is ever raised (the handler is total). -/
theorem processMappingLine_install_conditions (p : ProfileCfg) (rawLine : List Char) :
    (∀ n, (processMappingLine p rawLine).table n = p.table n) ∨
    (∃ e km,
      (trimChars rawLine).findIdx? (fun c => c == '=') = some e ∧ 0 < e ∧
      0 ≤ toIntChars (trimChars ((trimChars rawLine).take e)) ∧
      toIntChars (trimChars ((trimChars rawLine).take e)) < 128 ∧
      parseKeyMapping
        (trimChars (stripComment (trimChars ((trimChars rawLine).drop (e + 1))))) = some km ∧
      (∀ n, n ≠ (toIntChars (trimChars ((trimChars rawLine).take e))).toNat →
        (processMappingLine p rawLine).table n = p.table n) ∧
      (processMappingLine p rawLine).table
        (toIntChars (trimChars ((trimChars rawLine).take e))).toNat = km) := by
  unfold processMappingLine
  by_cases h1 : trimChars rawLine = []
  · left; simp [h1]
  · rw [if_neg h1]
    by_cases h2 : (trimChars rawLine).head? = some '[' ∧ (trimChars rawLine).getLast? = some ']'
    · left; rw [if_pos h2]; intro n; rfl
    · rw [if_neg h2]
      by_cases h3 : (trimChars rawLine).head? = some '#'
      · left; rw [if_pos h3]; intro n; rfl
      · rw [if_neg h3]
        cases hfind : (trimChars rawLine).findIdx? (fun c => c == '=') with
        | none => left; intro n; rfl
        | some e =>
          dsimp only
          by_cases he : 0 < e
          · rw [if_pos he]
            by_cases h4 : upperChars (trimChars ((trimChars rawLine).take e)) = cs "FAST_PRESS_MODE" ∨
                upperChars (trimChars ((trimChars rawLine).take e)) = cs "FASTPRESS"
            · left; rw [if_pos h4]; intro n; rfl
            · rw [if_neg h4]
              by_cases h5 : upperChars (trimChars ((trimChars rawLine).take e)) = cs "PRESS_DURATION" ∨
                  upperChars (trimChars ((trimChars rawLine).take e)) = cs "DURATION"
              · rw [if_pos h5]
                left
                by_cases h6 : 0 ≤ toIntChars (trimChars ((trimChars rawLine).drop (e + 1))) ∧
                    toIntChars (trimChars ((trimChars rawLine).drop (e + 1))) ≤ 1000
                · rw [if_pos h6]; intro n; rfl
                · rw [if_neg h6]; intro n; rfl
              · rw [if_neg h5]
                by_cases h7 : 0 ≤ toIntChars (trimChars ((trimChars rawLine).take e)) ∧
                    toIntChars (trimChars ((trimChars rawLine).take e)) < 128
                · rw [if_pos h7]
                  cases hkm : parseKeyMapping
                      (trimChars (stripComment (trimChars ((trimChars rawLine).drop (e + 1))))) with
                  | none => left; intro n; rfl
                  | some km =>
                    right
                    refine ⟨e, km, rfl, he, h7.1, h7.2, hkm, ?_, ?_⟩
                    · intro n hn
                      simp [if_neg hn]
                    · simp
                · rw [if_neg h7]; left; intro n; rfl
          · rw [if_neg he]; left; intro n; rfl

/-- Claim C6, counterexample to the original statement: the left side
of "FOO=A" contains no digit at all, so it is not an integer note in
[0,127], yet toInt parses it as 0 and the handler does modify the
table, installing key A at note 0. -/
theorem processMappingLine_nonnumeric_note :
    ((cs "FOO").all (fun c => !c.isDigit)) = true ∧
    (processMappingLine ⟨true, 0, fun _ => ⟨0, 0⟩⟩ (cs "FOO=A")).table 0 = ⟨4, 0⟩ ∧
    (fun _ => (⟨0, 0⟩ : KeyMapping)) 0 = ⟨0, 0⟩ := by decide

/-- One profile record: the 128-entry note table (read as a function of
the note number), the validity flag and the per-profile fast-press
settings. -/
structure Profile where
  noteToKey : Nat → KeyMapping
  isValid : Bool
  fastPressMode : Bool
  pressDurationMs : Nat

/-- A pending fast-press timer: the pair to release and the millis
timestamp at which to release it. -/
structure FastTimer where
  keyCode : Nat
  modifierMask : Nat
  releaseTime : Nat
deriving DecidableEq

/-- The mutable runtime state of the translator: the loaded profiles
with their count, the active index, the configured profile-switch note,
the pressed-key list, the standalone-modifier mask and the fast-press
timer list. -/
structure MState where
  profiles : Nat → Profile
  profileCount : Nat
  currentProfileIndex : Nat
  profileSwitchNote : Nat
  pressedKeys : List PressedKey
  activeModifierKeys : Nat
  fastPressTimers : List FastTimer

/-- The release loop of switchProfile: walk the pressed-key list from
its last index down to 0, each time removing the pair found at that
index of the current list. -/
def drainLoop : Nat → List PressedKey → List PressedKey
  | 0, l => l
  | i + 1, l =>
    match l.get? i with
    | some k => drainLoop i (removePressedKey l k.keyCode k.modifierMask)
    | none => drainLoop i l

/-- switchProfile of main.cpp: a guarded no-op for an out-of-range or
invalid target; otherwise set the current index, drain the pressed-key
list entry by entry (with no report refresh inside the loop), clear the
standalone-modifier mask, refresh once, and drop all pending timers. -/
def switchProfile (s : MState) (idx : Nat) : MState × List Report :=
  if idx < s.profileCount ∧ (s.profiles idx).isValid then
    let s1 := { s with currentProfileIndex := idx }
    let pk := drainLoop s1.pressedKeys.length s1.pressedKeys
    let s2 := { s1 with pressedKeys := pk, activeModifierKeys := 0 }
    let reps := updateKeyboardState s2.pressedKeys s2.activeModifierKeys
    ({ s2 with fastPressTimers := [] }, reps)
  else (s, [])

/-- The three MIDI message kinds the dispatcher distinguishes. -/
inductive MidiType where
  | noteOn
  | noteOff
  | other
deriving DecidableEq

/-- processMidiMessage of main.cpp, with the reports sent during the
call collected in order: the profile-switch guard (NoteOn, positive
velocity, switching enabled, matching note) cycles the profile and
consumes the event; NoteOn with positive velocity looks up the active
profile's mapping and dispatches per the modifier-only check and the
fast-press policy; NoteOff (and NoteOn with velocity 0) clears a
modifier-only mapping or, in normal mode only, releases a regular
mapping; anything else does nothing. -/
def processMidiMessage (s : MState) (t : MidiType) (note velocity now : Nat) :
    MState × List Report :=
  if s.profileSwitchNote < 255 ∧ t = MidiType.noteOn ∧ 0 < velocity ∧
      note = s.profileSwitchNote then
    if 1 < s.profileCount then
      switchProfile s ((s.currentProfileIndex + 1) % s.profileCount)
    else (s, [])
  else if t = MidiType.noteOn ∧ 0 < velocity then
    let mapping := (s.profiles s.currentProfileIndex).noteToKey note
    if 0 < mapping.keyCode ∨ 0 < mapping.modifierMask then
      if mapping.keyCode = 0 ∧ 0 < mapping.modifierMask then
        let s' := { s with activeModifierKeys := s.activeModifierKeys ||| mapping.modifierMask }
        (s', updateKeyboardState s'.pressedKeys s'.activeModifierKeys)
      else
        if (s.profiles s.currentProfileIndex).fastPressMode then
          if (s.profiles s.currentProfileIndex).pressDurationMs = 0 then
            let l1 := addPressedKey s.pressedKeys mapping.keyCode mapping.modifierMask
            let r1 := updateKeyboardState l1 s.activeModifierKeys
            let l2 := removePressedKey l1 mapping.keyCode mapping.modifierMask
            let r2 := updateKeyboardState l2 s.activeModifierKeys
            ({ s with pressedKeys := l2 }, r1 ++ r2)
          else
            let l1 := addPressedKey s.pressedKeys mapping.keyCode mapping.modifierMask
            let r1 := updateKeyboardState l1 s.activeModifierKeys
            let tm :=
              if s.fastPressTimers.length < 6 then
                s.fastPressTimers ++
                  [⟨mapping.keyCode, mapping.modifierMask,
                    now + (s.profiles s.currentProfileIndex).pressDurationMs⟩]
              else s.fastPressTimers
            ({ s with pressedKeys := l1, fastPressTimers := tm }, r1)
        else
          let l1 := addPressedKey s.pressedKeys mapping.keyCode mapping.modifierMask
          ({ s with pressedKeys := l1 }, updateKeyboardState l1 s.activeModifierKeys)
    else (s, [])
  else if t = MidiType.noteOff ∨ (t = MidiType.noteOn ∧ velocity = 0) then
    let mapping := (s.profiles s.currentProfileIndex).noteToKey note
    if 0 < mapping.keyCode ∨ 0 < mapping.modifierMask then
      if mapping.keyCode = 0 ∧ 0 < mapping.modifierMask then
        let s' := { s with
          activeModifierKeys := s.activeModifierKeys &&& (255 ^^^ mapping.modifierMask) }
        (s', updateKeyboardState s'.pressedKeys s'.activeModifierKeys)
      else
        if (s.profiles s.currentProfileIndex).fastPressMode then (s, [])
        else
          let l1 := removePressedKey s.pressedKeys mapping.keyCode mapping.modifierMask
          ({ s with pressedKeys := l1 }, updateKeyboardState l1 s.activeModifierKeys)
    else (s, [])
  else (s, [])

/-- The scan of handleFastPress: walk the timer list from its last
index down to 0; every elapsed timer releases its pair, refreshes the
report and is deleted in place (the compaction of the C loop is
List.eraseIdx), all with the running clock value now. -/
def handleFastPressLoop (now : Nat) : Nat → MState → MState × List Report
  | 0, s => (s, [])
  | i + 1, s =>
    match s.fastPressTimers.get? i with
    | some tm =>
      if tm.releaseTime ≤ now then
        let l1 := removePressedKey s.pressedKeys tm.keyCode tm.modifierMask
        let r := updateKeyboardState l1 s.activeModifierKeys
        let s' := { s with pressedKeys := l1,
                           fastPressTimers := s.fastPressTimers.eraseIdx i }
        let rest := handleFastPressLoop now i s'
        (rest.1, r ++ rest.2)
      else handleFastPressLoop now i s
    | none => handleFastPressLoop now i s

/-- handleFastPress of main.cpp. -/
def handleFastPress (s : MState) (now : Nat) : MState × List Report :=
  handleFastPressLoop now s.fastPressTimers.length s

/-- The external events that drive the runtime state: a polled MIDI
message, a scheduler tick of the main loop (guarded, as in loop(), by
the active profile being valid and in fast-press mode), and a profile
switch request. -/
inductive Ev where
  | midi (t : MidiType) (note velocity now : Nat)
  | tick (now : Nat)
  | switch (idx : Nat)

/-- One step of the polling loop on one event. -/
def step (s : MState) (e : Ev) : MState × List Report :=
  match e with
  | Ev.midi t note velocity now => processMidiMessage s t note velocity now
  | Ev.tick now =>
    if (s.profiles s.currentProfileIndex).isValid ∧
        (s.profiles s.currentProfileIndex).fastPressMode then
      handleFastPress s now
    else (s, [])
  | Ev.switch idx => switchProfile s idx

/-- The state after a sequence of events. -/
def runEvents (s : MState) (evs : List Ev) : MState :=
  evs.foldl (fun st e => (step st e).1) s

lemma removePressedKey_length_of_mem (l : List PressedKey) (kc mm : Nat)
    (h : ∃ k ∈ l, k.keyCode = kc ∧ k.modifierMask = mm) :
    (removePressedKey l kc mm).length + 1 = l.length := by
  induction l with
  | nil => rcases h with ⟨k, hk, _⟩; simp at hk
  | cons a rest ih =>
    by_cases hb : (a.keyCode == kc && a.modifierMask == mm) = true
    · simp only [removePressedKey, hb, if_pos]
      simp
    · simp only [removePressedKey, hb, Bool.false_eq_true, if_false]
      have hrest : ∃ k ∈ rest, k.keyCode = kc ∧ k.modifierMask = mm := by
        rcases h with ⟨k, hk, hkk⟩
        rcases List.mem_cons.mp hk with h1 | h1
        · exfalso
          apply hb
          subst h1
          simp [hkk.1, hkk.2]
        · exact ⟨k, h1, hkk⟩
      have := ih hrest
      simp only [List.length_cons]
      omega

lemma drainLoop_nil : ∀ (n : Nat) (l : List PressedKey), l.length = n → drainLoop n l = [] := by
  intro n
  induction n with
  | zero =>
    intro l hl
    rw [drainLoop]
    exact List.eq_nil_of_length_eq_zero hl
  | succ i ih =>
    intro l hl
    have hlt : i < l.length := by omega
    have hsome : l.get? i = some (l.get ⟨i, hlt⟩) := List.get?_eq_get hlt
    simp only [drainLoop, hsome]
    apply ih
    have hmem : l.get ⟨i, hlt⟩ ∈ l := List.get_mem l i hlt
    have := removePressedKey_length_of_mem l (l.get ⟨i, hlt⟩).keyCode
      (l.get ⟨i, hlt⟩).modifierMask ⟨l.get ⟨i, hlt⟩, hmem, rfl, rfl⟩
    omega

lemma switchProfile_valid_eq (s : MState) (idx : Nat)
    (h : idx < s.profileCount ∧ (s.profiles idx).isValid) :
    switchProfile s idx =
      ({ s with currentProfileIndex := idx, pressedKeys := [],
                activeModifierKeys := 0, fastPressTimers := [] }, [⟨[], 0⟩]) := by
  unfold switchProfile
  rw [if_pos h]
  dsimp only
  rw [drainLoop_nil _ _ rfl]
  rfl

lemma switchProfile_invalid_eq (s : MState) (idx : Nat)
    (h : ¬(idx < s.profileCount ∧ (s.profiles idx).isValid)) :
    switchProfile s idx = (s, []) := by
  unfold switchProfile
  rw [if_neg h]

/-- Claim C1 (amended): for an in-range target with a valid profile,
switchProfile sets the current index, empties the pressed-key list with
no report refresh during the removals, zeroes the standalone-modifier
mask, performs exactly one report refresh — a single all-zero report —
and discards all pending fast-press timers; for an out-of-range or
invalid target the entire state is unchanged and nothing is emitted. -/
theorem switchProfile_single_refresh (s : MState) (idx : Nat) :
    (idx < s.profileCount ∧ (s.profiles idx).isValid →
      switchProfile s idx =
        ({ s with currentProfileIndex := idx, pressedKeys := [],
                  activeModifierKeys := 0, fastPressTimers := [] }, [⟨[], 0⟩])) ∧
    (¬(idx < s.profileCount ∧ (s.profiles idx).isValid) →
      switchProfile s idx = (s, [])) :=
  ⟨switchProfile_valid_eq s idx, switchProfile_invalid_eq s idx⟩

/-- Concrete runtime state with one pressed key and two valid profiles,
used to exercise switchProfile. -/
def c1ExampleState : MState :=
  { profiles := fun _ => ⟨fun _ => ⟨0, 0⟩, true, true, 0⟩,
    profileCount := 2, currentProfileIndex := 0, profileSwitchNote := 24,
    pressedKeys := [⟨11, 0⟩], activeModifierKeys := 0, fastPressTimers := [] }

/-- Claim C1, counterexample to the original statement: switching away
from a state holding one pressed key emits exactly one report (the
single all-zero refresh after the drain), not the two reports the
per-removal-refresh reading requires (one per-key release plus the
final refresh). -/
theorem switchProfile_not_per_key_refresh :
    (switchProfile c1ExampleState 1).2 = [⟨[], 0⟩] ∧
    ((switchProfile c1ExampleState 1).2).length ≠ 2 := by decide

/-- Witness for the amended C1 theorem: the valid branch at index 1 and
the no-op branch at the out-of-range index 5. -/
theorem switchProfile_single_refresh_witness :
    switchProfile c1ExampleState 1 =
      ({ c1ExampleState with currentProfileIndex := 1, pressedKeys := [],
                             activeModifierKeys := 0, fastPressTimers := [] }, [⟨[], 0⟩]) ∧
    switchProfile c1ExampleState 5 = (c1ExampleState, []) :=
  ⟨(switchProfile_single_refresh c1ExampleState 1).1 ⟨by decide, by decide⟩,
   (switchProfile_single_refresh c1ExampleState 5).2 (by decide)⟩

/-- Replace the active profile's mapping-table entry for one note,
leaving every other field and profile untouched. -/
def setEntry (s : MState) (n : Nat) (e : KeyMapping) : MState :=
  { s with profiles := fun i =>
      if i = s.currentProfileIndex then
        { s.profiles i with noteToKey := fun m => if m = n then e else (s.profiles i).noteToKey m }
      else s.profiles i }

lemma setEntry_isValid (s : MState) (n : Nat) (e : KeyMapping) (idx : Nat) :
    ((setEntry s n e).profiles idx).isValid = (s.profiles idx).isValid := by
  by_cases hc : idx = s.currentProfileIndex <;> simp [setEntry, hc]

/-- Claim C2 (amended): a NoteOn with positive velocity at the enabled
profile-switch note is consumed before the mapping lookup, so the
resulting pressed-key list, standalone-modifier mask, timer list,
current index and emitted reports are all independent of the switch
note's entry in the active profile's table.  (NoteOff and velocity-0
NoteOn at the switch note are not covered: they take the ordinary
note-off path, which does read the entry.) -/
theorem profileSwitchNote_noteOn_independent (s : MState) (e : KeyMapping)
    (note velocity now : Nat) (h1 : s.profileSwitchNote < 255) (h2 : 0 < velocity)
    (h3 : note = s.profileSwitchNote) :
    (processMidiMessage (setEntry s note e) MidiType.noteOn note velocity now).1.pressedKeys =
      (processMidiMessage s MidiType.noteOn note velocity now).1.pressedKeys ∧
    (processMidiMessage (setEntry s note e) MidiType.noteOn note velocity now).1.activeModifierKeys =
      (processMidiMessage s MidiType.noteOn note velocity now).1.activeModifierKeys ∧
    (processMidiMessage (setEntry s note e) MidiType.noteOn note velocity now).1.fastPressTimers =
      (processMidiMessage s MidiType.noteOn note velocity now).1.fastPressTimers ∧
    (processMidiMessage (setEntry s note e) MidiType.noteOn note velocity now).1.currentProfileIndex =
      (processMidiMessage s MidiType.noteOn note velocity now).1.currentProfileIndex ∧
    (processMidiMessage (setEntry s note e) MidiType.noteOn note velocity now).2 =
      (processMidiMessage s MidiType.noteOn note velocity now).2 := by
  have hB : processMidiMessage s MidiType.noteOn note velocity now =
      (if 1 < s.profileCount then
        switchProfile s ((s.currentProfileIndex + 1) % s.profileCount)
      else (s, [])) := by
    unfold processMidiMessage
    rw [if_pos ⟨h1, rfl, h2, h3⟩]
  have hA : processMidiMessage (setEntry s note e) MidiType.noteOn note velocity now =
      (if 1 < s.profileCount then
        switchProfile (setEntry s note e) ((s.currentProfileIndex + 1) % s.profileCount)
      else (setEntry s note e, [])) := by
    unfold processMidiMessage
    rw [if_pos (show (setEntry s note e).profileSwitchNote < 255 ∧
      MidiType.noteOn = MidiType.noteOn ∧ 0 < velocity ∧
      note = (setEntry s note e).profileSwitchNote from ⟨h1, rfl, h2, h3⟩)]
    rfl
  rw [hA, hB]
  by_cases hc : 1 < s.profileCount
  · rw [if_pos hc, if_pos hc]
    by_cases hv : (s.profiles ((s.currentProfileIndex + 1) % s.profileCount)).isValid = true
    · have hlt : (s.currentProfileIndex + 1) % s.profileCount < s.profileCount :=
        Nat.mod_lt _ (by omega)
      rw [switchProfile_valid_eq s _ ⟨hlt, hv⟩,
          switchProfile_valid_eq (setEntry s note e) _
            ⟨hlt, by rw [setEntry_isValid]; exact hv⟩]
      exact ⟨rfl, rfl, rfl, rfl, rfl⟩
    · rw [switchProfile_invalid_eq s _ (fun hcon => hv hcon.2),
          switchProfile_invalid_eq (setEntry s note e) _
            (fun hcon => hv (by rw [← setEntry_isValid s note e]; exact hcon.2))]
      exact ⟨rfl, rfl, rfl, rfl, rfl⟩
  · rw [if_neg hc, if_neg hc]
    exact ⟨rfl, rfl, rfl, rfl, rfl⟩

/-- Concrete runtime state whose active profile maps the switch note 24
to the regular key 4, in normal (non-fast-press) mode, with that key
currently held. -/
def c2ExampleState : MState :=
  { profiles := fun _ =>
      ⟨fun n => if n = 24 then ⟨4, 0⟩ else ⟨0, 0⟩, true, false, 0⟩,
    profileCount := 1, currentProfileIndex := 0, profileSwitchNote := 24,
    pressedKeys := [⟨4, 0⟩], activeModifierKeys := 0, fastPressTimers := [] }

/-- Claim C2, counterexample to the original statement: a NoteOff at the
enabled switch note is not filtered; it reads the note's mapping entry
and releases the held key, while the same event with the entry zeroed
leaves the pressed-key list unchanged — so the dispatcher does read the
entry and does change the Pressed-Key Set from it. -/
theorem profileSwitchNote_noteOff_reads_entry :
    (processMidiMessage c2ExampleState MidiType.noteOff 24 0 0).1.pressedKeys = [] ∧
    c2ExampleState.pressedKeys = [⟨4, 0⟩] ∧
    (processMidiMessage (setEntry c2ExampleState 24 ⟨0, 0⟩)
      MidiType.noteOff 24 0 0).1.pressedKeys = [⟨4, 0⟩] := by decide

/-- Witness for the amended C2 theorem at a concrete state and entry. -/
theorem profileSwitchNote_noteOn_independent_witness :
    (processMidiMessage (setEntry c2ExampleState 24 ⟨9, 2⟩)
        MidiType.noteOn 24 1 0).1.pressedKeys =
      (processMidiMessage c2ExampleState MidiType.noteOn 24 1 0).1.pressedKeys ∧
    (processMidiMessage (setEntry c2ExampleState 24 ⟨9, 2⟩)
        MidiType.noteOn 24 1 0).1.activeModifierKeys =
      (processMidiMessage c2ExampleState MidiType.noteOn 24 1 0).1.activeModifierKeys ∧
    (processMidiMessage (setEntry c2ExampleState 24 ⟨9, 2⟩)
        MidiType.noteOn 24 1 0).1.fastPressTimers =
      (processMidiMessage c2ExampleState MidiType.noteOn 24 1 0).1.fastPressTimers ∧
    (processMidiMessage (setEntry c2ExampleState 24 ⟨9, 2⟩)
        MidiType.noteOn 24 1 0).1.currentProfileIndex =
      (processMidiMessage c2ExampleState MidiType.noteOn 24 1 0).1.currentProfileIndex ∧
    (processMidiMessage (setEntry c2ExampleState 24 ⟨9, 2⟩)
        MidiType.noteOn 24 1 0).2 =
      (processMidiMessage c2ExampleState MidiType.noteOn 24 1 0).2 :=
  profileSwitchNote_noteOn_independent c2ExampleState ⟨9, 2⟩ 24 1 0
    (by decide) (by decide) (by decide)

/-- Claim C9: with the active profile in fast-press mode at duration 0
and an empty pressed-key list, a NoteOn with positive velocity for a
note mapped to a regular key (and distinct from the switch note) sends
exactly two reports — one with the key pressed under its modifier, one
with it released — and leaves the pressed-key list empty with the timer
list untouched; the subsequent NoteOff for that note returns the state
unchanged and sends nothing. -/
theorem fastPress_zero_duration_tap (s : MState) (note velocity now v' now' : Nat)
    (hfp : (s.profiles s.currentProfileIndex).fastPressMode = true)
    (hdur : (s.profiles s.currentProfileIndex).pressDurationMs = 0)
    (hempty : s.pressedKeys = [])
    (hkc : 0 < ((s.profiles s.currentProfileIndex).noteToKey note).keyCode)
    (hns : note ≠ s.profileSwitchNote)
    (hv : 0 < velocity) :
    processMidiMessage s MidiType.noteOn note velocity now =
      ({ s with pressedKeys := [] },
       [⟨[((s.profiles s.currentProfileIndex).noteToKey note).keyCode],
         ((s.profiles s.currentProfileIndex).noteToKey note).modifierMask |||
           s.activeModifierKeys⟩,
        ⟨[], s.activeModifierKeys⟩]) ∧
    processMidiMessage { s with pressedKeys := [] } MidiType.noteOff note v' now' =
      ({ s with pressedKeys := [] }, []) := by
  constructor
  · unfold processMidiMessage
    rw [if_neg (fun hcon => hns hcon.2.2.2)]
    rw [if_pos ⟨rfl, hv⟩]
    dsimp only
    rw [if_pos (Or.inl hkc)]
    rw [if_neg (fun hcon => by rw [hcon.1] at hkc; exact Nat.lt_irrefl 0 hkc)]
    rw [if_pos hfp, if_pos hdur]
    rw [hempty]
    have hadd : addPressedKey []
        ((s.profiles s.currentProfileIndex).noteToKey note).keyCode
        ((s.profiles s.currentProfileIndex).noteToKey note).modifierMask =
        [⟨((s.profiles s.currentProfileIndex).noteToKey note).keyCode,
          ((s.profiles s.currentProfileIndex).noteToKey note).modifierMask⟩] := by
      simp [addPressedKey]
    rw [hadd]
    have hrem : removePressedKey
        [⟨((s.profiles s.currentProfileIndex).noteToKey note).keyCode,
          ((s.profiles s.currentProfileIndex).noteToKey note).modifierMask⟩]
        ((s.profiles s.currentProfileIndex).noteToKey note).keyCode
        ((s.profiles s.currentProfileIndex).noteToKey note).modifierMask = [] := by
      simp [removePressedKey]
    rw [hrem]
    have hupd1 : updateKeyboardState
        [⟨((s.profiles s.currentProfileIndex).noteToKey note).keyCode,
          ((s.profiles s.currentProfileIndex).noteToKey note).modifierMask⟩]
        s.activeModifierKeys =
        [⟨[((s.profiles s.currentProfileIndex).noteToKey note).keyCode],
          ((s.profiles s.currentProfileIndex).noteToKey note).modifierMask |||
            s.activeModifierKeys⟩] := by
      simp [updateKeyboardState, keysOf, hkc]
    have hupd2 : updateKeyboardState [] s.activeModifierKeys =
        [⟨[], s.activeModifierKeys⟩] := by
      by_cases h0 : s.activeModifierKeys = 0
      · simp [updateKeyboardState, h0]
      · simp [updateKeyboardState, h0]
    rw [hupd1, hupd2]
    rfl
  · unfold processMidiMessage
    rw [if_neg (fun hcon =>
      (by decide : MidiType.noteOff ≠ MidiType.noteOn) hcon.2.1)]
    rw [if_neg (fun hcon =>
      (by decide : MidiType.noteOff ≠ MidiType.noteOn) hcon.1)]
    rw [if_pos (Or.inl rfl)]
    dsimp only
    rw [if_pos (Or.inl hkc)]
    rw [if_neg (fun hcon => by rw [hcon.1] at hkc; exact Nat.lt_irrefl 0 hkc)]
    rw [if_pos hfp]

/-- Concrete runtime state in fast-press mode with duration 0, mapping
note 60 to the regular key 11. -/
def c9ExampleState : MState :=
  { profiles := fun _ =>
      ⟨fun n => if n = 60 then ⟨11, 0⟩ else ⟨0, 0⟩, true, true, 0⟩,
    profileCount := 1, currentProfileIndex := 0, profileSwitchNote := 24,
    pressedKeys := [], activeModifierKeys := 0, fastPressTimers := [] }

/-- Witness for C9 at the concrete state: NoteOn 60 taps key 11. -/
theorem fastPress_zero_duration_tap_witness :
    processMidiMessage c9ExampleState MidiType.noteOn 60 100 0 =
      ({ c9ExampleState with pressedKeys := [] },
       [⟨[((c9ExampleState.profiles c9ExampleState.currentProfileIndex).noteToKey 60).keyCode],
         ((c9ExampleState.profiles c9ExampleState.currentProfileIndex).noteToKey 60).modifierMask |||
           c9ExampleState.activeModifierKeys⟩,
        ⟨[], c9ExampleState.activeModifierKeys⟩]) ∧
    processMidiMessage { c9ExampleState with pressedKeys := [] } MidiType.noteOff 60 0 1 =
      ({ c9ExampleState with pressedKeys := [] }, []) :=
  fastPress_zero_duration_tap c9ExampleState 60 100 0 0 1
    (by decide) (by decide) rfl (by decide) (by decide) (by decide)

lemma addPressedKey_length_le (l : List PressedKey) (kc mm : Nat) (h : l.length ≤ 6) :
    (addPressedKey l kc mm).length ≤ 6 := by
  unfold addPressedKey
  split_ifs with h1 h2
  · exact h
  · simp only [List.length_append, List.length_singleton]
    omega
  · exact h

lemma removePressedKey_length_le (l : List PressedKey) (kc mm : Nat) :
    (removePressedKey l kc mm).length ≤ l.length := by
  induction l with
  | nil => simp [removePressedKey]
  | cons a rest ih =>
    simp only [removePressedKey]
    split_ifs
    · simp
    · simp only [List.length_cons]
      omega

/-- The capacity invariant of the runtime state: at most six pressed
keys and at most six pending fast-press timers. -/
def StateBounded (s : MState) : Prop :=
  s.pressedKeys.length ≤ 6 ∧ s.fastPressTimers.length ≤ 6

lemma switchProfile_bounded (s : MState) (idx : Nat) (h : StateBounded s) :
    StateBounded (switchProfile s idx).1 := by
  by_cases hv : idx < s.profileCount ∧ (s.profiles idx).isValid
  · rw [switchProfile_valid_eq s idx hv]
    exact ⟨by simp, by simp⟩
  · rw [switchProfile_invalid_eq s idx hv]
    exact h

lemma processMidiMessage_bounded (s : MState) (t : MidiType) (note velocity now : Nat)
    (h : StateBounded s) : StateBounded (processMidiMessage s t note velocity now).1 := by
  unfold processMidiMessage
  dsimp only
  split_ifs
  all_goals
    first
      | exact switchProfile_bounded s _ h
      | exact h
      | exact ⟨le_trans (removePressedKey_length_le _ _ _)
          (addPressedKey_length_le _ _ _ h.1), h.2⟩
      | exact ⟨addPressedKey_length_le _ _ _ h.1,
          by simp only [List.length_append, List.length_singleton]; omega⟩
      | exact ⟨addPressedKey_length_le _ _ _ h.1, h.2⟩
      | exact ⟨le_trans (removePressedKey_length_le _ _ _) h.1, h.2⟩

lemma handleFastPressLoop_bounded (now : Nat) :
    ∀ (i : Nat) (s : MState), StateBounded s →
      StateBounded (handleFastPressLoop now i s).1 := by
  intro i
  induction i with
  | zero => intro s h; exact h
  | succ i ih =>
    intro s h
    cases hget : s.fastPressTimers.get? i with
    | none =>
      simp only [handleFastPressLoop, hget]
      exact ih s h
    | some tm =>
      simp only [handleFastPressLoop, hget]
      split_ifs with ht
      · dsimp only
        apply ih
        refine ⟨le_trans (removePressedKey_length_le _ _ _) h.1, ?_⟩
        exact le_trans (List.length_eraseIdx_le _ _) h.2
      · exact ih s h

lemma step_bounded (s : MState) (e : Ev) (h : StateBounded s) :
    StateBounded (step s e).1 := by
  cases e with
  | midi t note velocity now => exact processMidiMessage_bounded s t note velocity now h
  | tick now =>
    simp only [step]
    split_ifs with hg
    · exact handleFastPressLoop_bounded now _ s h
    · exact h
  | switch idx => exact switchProfile_bounded s idx h

lemma runEvents_bounded (evs : List Ev) :
    ∀ s : MState, StateBounded s → StateBounded (runEvents s evs) := by
  induction evs with
  | nil => intro s h; exact h
  | cons e rest ih =>
    intro s h
    exact ih (step s e).1 (step_bounded s e h)

/-- Claim C8: from any state with empty pressed-key and timer lists,
every sequence of MIDI events, scheduler ticks and profile switches
keeps the pressed-key list and the fast-press timer list at no more
than six entries; and adding a distinct new pair to a pressed-key list
already holding six entries leaves the list unchanged — the new key is
dropped and no older entry is evicted. -/
theorem reachable_capacity_invariant :
    (∀ (s0 : MState) (evs : List Ev), s0.pressedKeys = [] → s0.fastPressTimers = [] →
      (runEvents s0 evs).pressedKeys.length ≤ 6 ∧
      (runEvents s0 evs).fastPressTimers.length ≤ 6) ∧
    (∀ (l : List PressedKey) (kc mm : Nat), l.length = 6 →
      (∀ k ∈ l, ¬(k.keyCode = kc ∧ k.modifierMask = mm)) →
      addPressedKey l kc mm = l) := by
  constructor
  · intro s0 evs h1 h2
    exact runEvents_bounded evs s0 ⟨by simp [h1], by simp [h2]⟩
  · intro l kc mm hlen habs
    have hany : (l.any (fun k => k.keyCode == kc && k.modifierMask == mm)) = false := by
      simp only [List.any_eq_false]
      intro k hk
      simp only [Bool.and_eq_true, beq_iff_eq]
      exact habs k hk
    simp [addPressedKey, hany, hlen]

/-- Concrete six-entry pressed-key list. -/
def c8FullList : List PressedKey :=
  [⟨4, 0⟩, ⟨5, 0⟩, ⟨6, 0⟩, ⟨7, 0⟩, ⟨8, 0⟩, ⟨9, 0⟩]

/-- Witness for C8: a concrete one-event run stays within capacity, and
a seventh distinct key is dropped from a full list. -/
theorem reachable_capacity_invariant_witness :
    ((runEvents c9ExampleState [Ev.midi MidiType.noteOn 60 100 0]).pressedKeys.length ≤ 6 ∧
     (runEvents c9ExampleState [Ev.midi MidiType.noteOn 60 100 0]).fastPressTimers.length ≤ 6) ∧
    addPressedKey c8FullList 10 0 = c8FullList :=
  ⟨reachable_capacity_invariant.1 c9ExampleState [Ev.midi MidiType.noteOn 60 100 0] rfl rfl,
   reachable_capacity_invariant.2 c8FullList 10 0 (by decide) (by decide)⟩
